import Mathlib

/-!
Verification of the instapod article-processing pipeline.

Shallow embedding of the core modules of the repository:

* `src/translator.ts` — language-skip policy, sentence chunking, retry with
  exponential backoff (`translateText`, `translateTitle`, `callChatCompletions`,
  `splitIntoChunks`, `LANG_NAME_TO_CODE`).
* `src/tts.ts` — audio filename generation (`generateFilename`).
* `src/state.ts` — the durable state store (`StateManager`: `load`, `save`,
  `isProcessed`, `addProcessed`, `getProcessedBookmarks`, `updateLastRun`),
  plus a byte-level model of the write-temp-then-rename commit.
* `src/worker.ts` — the pipeline orchestrator (`runPipeline`, `processBookmark`).

Conventions of the embedding:

* JavaScript strings are Lean `String`s; `.length` (UTF-16 units) agrees with
  Lean's codepoint length on the ASCII/BMP inputs used throughout.
* ISO-8601 timestamps are modeled as natural numbers (the value of
  `new Date(x).getTime()`); comparisons in the source go through `getTime`.
* External collaborators (the franc language identifier, the remote chat
  completions endpoint, the Instapaper client, the edge-tts engine) are
  parameters (oracles) of the embedded functions; remote invocations are made
  observable as explicit counts or event traces.
* A JavaScript plain object used as a map (`Record<string, ...>`) is an
  association list in key-creation order together with the ECMA-262 own-key
  enumeration rule (array-index keys ascending first, then the remaining
  string keys in insertion order).
-/

namespace Instapod

/-! ## Small string helpers shared by the embedded modules -/

/-- Model of the whitespace class used by JavaScript `String.prototype.trim`
and the regex class `\s` (the inputs exercised here only use ASCII blanks). -/
def isJsWhitespace (c : Char) : Bool := c.isWhitespace

/-- Model of JavaScript `String.prototype.trim`: drop whitespace from both
ends. -/
def trimStr (s : String) : String :=
  String.mk (((s.data.dropWhile isJsWhitespace).reverse.dropWhile isJsWhitespace).reverse)

theorem dropWhile_length_le (p : α → Bool) (l : List α) :
    (l.dropWhile p).length ≤ l.length :=
  (List.dropWhile_suffix p).length_le

theorem trimStr_length_le (s : String) : (trimStr s).length ≤ s.length := by
  unfold trimStr
  simp only [String.length]
  calc (((s.data.dropWhile isJsWhitespace).reverse.dropWhile isJsWhitespace).reverse).length
      = ((s.data.dropWhile isJsWhitespace).reverse.dropWhile isJsWhitespace).length := by
        simp
    _ ≤ (s.data.dropWhile isJsWhitespace).reverse.length := dropWhile_length_le _ _
    _ = (s.data.dropWhile isJsWhitespace).length := by simp
    _ ≤ s.data.length := dropWhile_length_le _ _

/-! ## Translator (`src/translator.ts`) -/

/-- ISO-639-3 codes for common target language names
(`LANG_NAME_TO_CODE` in `src/translator.ts`). -/
def LANG_NAME_TO_CODE : List (String × String) :=
  [("svenska", "swe"), ("swedish", "swe"),
   ("english", "eng"), ("engelska", "eng"),
   ("deutsch", "deu"), ("tyska", "deu"),
   ("french", "fra"), ("franska", "fra"),
   ("spanish", "spa"), ("spanska", "spa"),
   ("norwegian", "nor"), ("norska", "nor"),
   ("danish", "dan"), ("danska", "dan")]

/-- `MAX_CHARS_PER_CHUNK` in `src/translator.ts`. -/
def MAX_CHARS_PER_CHUNK : Nat := 12000

/-- The `TranslationConfig` record (`src/types.ts`), restricted to the fields
the translator reads. -/
structure TranslationConfig where
  api_base : String
  api_key : String
  model : String
  target_language : String
  skip_if_same : Bool
deriving Repr, DecidableEq

/-- Model of `String.prototype.toLowerCase` (ASCII case mapping suffices for
the table's keys). -/
def toLowerStr (s : String) : String :=
  String.mk (s.data.map Char.toLower)

/-- `LANG_NAME_TO_CODE[config.target_language.toLowerCase()] ?? ""`. -/
def targetCodeOf (cfg : TranslationConfig) : String :=
  (LANG_NAME_TO_CODE.lookup (toLowerStr cfg.target_language)).getD ""

/-- Characters ending a sentence in the chunking regex `[^.!?]+[.!?]+[\s]*`. -/
def isTermChar (c : Char) : Bool := c == '.' || c == '!' || c == '?'

/-- Model of `text.match(/[^.!?]+[.!?]+[\s]*/g)`: the successive matches of
the sentence regex.  Each match is a maximal run of non-terminator characters
followed by a non-empty run of terminators and any trailing whitespace;
characters not covered by any match (leading terminators, and a trailing
fragment with no terminator) are not returned. -/
def scanMatchesGo : Nat → List Char → List String
  | 0, _ => []
  | fuel + 1, l =>
    match l with
    | [] => []
    | c :: rest =>
      if isTermChar c then scanMatchesGo fuel rest
      else
        if (List.dropWhile (fun x => !isTermChar x) (c :: rest)).isEmpty then []
        else
          let after := List.dropWhile (fun x => !isTermChar x) (c :: rest)
          let nonterm := List.takeWhile (fun x => !isTermChar x) (c :: rest)
          let terms := after.takeWhile isTermChar
          let ws := (after.dropWhile isTermChar).takeWhile isJsWhitespace
          String.mk (nonterm ++ terms ++ ws) ::
            scanMatchesGo fuel ((after.dropWhile isTermChar).dropWhile isJsWhitespace)

/-- All matches of the sentence regex over the character list (`fuel` is an
upper bound on recursion depth, always sufficient at `l.length`). -/
def scanMatches (l : List Char) : List String :=
  scanMatchesGo l.length l

/-- The sentence list used by `splitIntoChunks`:
`text.match(/[^.!?]+[.!?]+[\s]*/g) ?? [text]`. -/
def sentencesOf (text : String) : List String :=
  match scanMatches text.data with
  | [] => [text]
  | l => l

/-- The accumulation loop of `splitIntoChunks`: greedily append sentences to
`current`, emitting `current.trim()` as a chunk whenever the next sentence
would push it past `maxChars` (and `current` is non-empty); the trimmed
remainder is emitted at the end if non-empty. -/
def buildChunks (maxChars : Nat) : List String → String → List String
  | [], current =>
    if (trimStr current).length > 0 then [trimStr current] else []
  | s :: rest, current =>
    if current.length + s.length > maxChars ∧ current.length > 0 then
      trimStr current :: buildChunks maxChars rest s
    else
      buildChunks maxChars rest (current ++ s)

/-- `splitIntoChunks` from `src/translator.ts`: split text into chunks at
sentence boundaries. -/
def splitIntoChunks (text : String) (maxChars : Nat) : List String :=
  if text.length ≤ maxChars then [text]
  else buildChunks maxChars (sentencesOf text) ""

/-- Result of an embedded translation entry point, instrumented so that the
remote interaction becomes observable: `output` is the returned string,
`apiCalls` counts invocations of the chat-completions endpoint, and `skipped`
records whether the language-skip early return was taken. -/
structure TransResult where
  output : String
  apiCalls : Nat
  skipped : Bool
deriving Repr, DecidableEq

/-- The translateText function from the source (`src/translator.ts`), with
the franc language identifier (`detect`) and the successful per-chunk result
of the chat-completions call (`api`) as oracle parameters. -/
def translateText (detect : String → String) (api : String → String)
    (cfg : TranslationConfig) (text : String) : TransResult :=
  if cfg.skip_if_same && (detect text == targetCodeOf cfg) then
    ⟨text, 0, true⟩
  else
    let chunks := splitIntoChunks text MAX_CHARS_PER_CHUNK
    ⟨String.intercalate "\n\n" (chunks.map api), chunks.length, false⟩

/-- The translateTitle function from the source: short text, single call,
same language-skip policy. -/
def translateTitle (detect : String → String) (api : String → String)
    (cfg : TranslationConfig) (title : String) : TransResult :=
  if cfg.skip_if_same && (detect title == targetCodeOf cfg) then
    ⟨title, 0, true⟩
  else
    ⟨api title, 1, false⟩

/-- Backoff delay in milliseconds after the given zero-based failed attempt:
`1000 * Math.pow(2, attempt)`. -/
def backoffDelayMs (attempt : Nat) : Nat := 1000 * 2 ^ attempt

/-- Observable trace of one `callChatCompletions` invocation: the overall
outcome, the backoff sleeps performed (in ms, in order), and how many
attempts were made against the endpoint. -/
structure CallTrace where
  outcome : Except String String
  delays : List Nat
  attemptsMade : Nat
deriving Repr

/-- The interpolation `${lastError?.message}` of the final error message. -/
def lastErrorMsg : Option String → String
  | some e => e
  | none => "undefined"

/-- The retry loop of `callChatCompletions` (`for attempt = 0..2`): `oracle
attempt` is the outcome of the attempt-th request (`Except.ok` is the first
completion's message content, `Except.error` any thrown failure: non-ok HTTP
status, network error, or timeout).  A failed attempt sleeps
`backoffDelayMs attempt` before continuing; `fuel` counts remaining attempts. -/
def callAttempts (oracle : Nat → Except String String) :
    Nat → Nat → Option String → CallTrace
  | 0, _, lastError =>
    ⟨.error ("Translation failed after 3 attempts: " ++ lastErrorMsg lastError), [], 0⟩
  | fuel + 1, attempt, _ =>
    match oracle attempt with
    | .ok content => ⟨.ok (trimStr content), [], 1⟩
    | .error e =>
      let rest := callAttempts oracle fuel (attempt + 1) (some e)
      ⟨rest.outcome, backoffDelayMs attempt :: rest.delays, rest.attemptsMade + 1⟩

/-- `callChatCompletions` from `src/translator.ts`: up to 3 attempts. -/
def callChatCompletions (oracle : Nat → Except String String) : CallTrace :=
  callAttempts oracle 3 0 none

/-! ## Audio filename generation (`src/tts.ts`) -/

/-- Modelled table of Unicode NFD decompositions (`title.normalize("NFD")`)
for the Latin letters exercised in this development; characters without an
entry decompose to themselves.  The combining marks used lie in
U+0300–U+036F. -/
def nfdDecompose (c : Char) : List Char :=
  match c with
  | 'á' => ['a', Char.ofNat 0x301]
  | 'à' => ['a', Char.ofNat 0x300]
  | 'ä' => ['a', Char.ofNat 0x308]
  | 'å' => ['a', Char.ofNat 0x30A]
  | 'é' => ['e', Char.ofNat 0x301]
  | 'è' => ['e', Char.ofNat 0x300]
  | 'ë' => ['e', Char.ofNat 0x308]
  | 'í' => ['i', Char.ofNat 0x301]
  | 'ö' => ['o', Char.ofNat 0x308]
  | 'ü' => ['u', Char.ofNat 0x308]
  | 'ñ' => ['n', Char.ofNat 0x303]
  | 'Á' => ['A', Char.ofNat 0x301]
  | 'Ä' => ['A', Char.ofNat 0x308]
  | 'Å' => ['A', Char.ofNat 0x30A]
  | 'É' => ['E', Char.ofNat 0x301]
  | 'Ö' => ['O', Char.ofNat 0x308]
  | 'Ü' => ['U', Char.ofNat 0x308]
  | _ => [c]

/-- The combining-mark range removed by `.replace(/[̀-ͯ]/g, "")`. -/
def isCombiningMark (c : Char) : Bool := 0x300 ≤ c.toNat && c.toNat ≤ 0x36F

/-- Characters kept verbatim by the slug: the class `[a-z0-9]`. -/
def isLowerAlnum (c : Char) : Bool :=
  ('a' ≤ c && c ≤ 'z') || ('0' ≤ c && c ≤ '9')

/-- Single pass of `.replace(/[^a-z0-9]+/g, "-")`: `inRun` records whether
the previous character was part of a non-alphanumeric run (which has already
emitted its dash). -/
def collapseGo : Bool → List Char → List Char
  | _, [] => []
  | inRun, c :: rest =>
    if isLowerAlnum c then c :: collapseGo false rest
    else if inRun then collapseGo true rest
    else '-' :: collapseGo true rest

/-- `.replace(/[^a-z0-9]+/g, "-")`: each maximal run of characters outside
`[a-z0-9]` becomes a single dash. -/
def collapseNonAlnum (l : List Char) : List Char :=
  collapseGo false l

/-- `.replace(/^-+|-+$/g, "")`: strip leading and trailing dashes. -/
def trimDashes (l : List Char) : List Char :=
  ((l.dropWhile (· == '-')).reverse.dropWhile (· == '-')).reverse

/-- The slug built by `generateFilename`: NFD-normalize, strip combining
marks, lowercase, collapse non-alphanumeric runs to a dash, trim dashes,
cap at 60 characters (`.slice(0, 60)`). -/
def slugOf (title : String) : String :=
  String.mk
    (List.take 60
      (trimDashes
        (collapseNonAlnum
          (((title.data.flatMap nfdDecompose).filter
              (fun c => !isCombiningMark c)).map Char.toLower))))

/-- `generateFilename` from `src/tts.ts`. -/
def generateFilename (bookmarkId : String) (title : String) : String :=
  bookmarkId ++ "-" ++ slugOf title ++ ".mp3"

/-! ## Durable state store (`src/state.ts`) -/

/-- The `ProcessedBookmark` record (`src/types.ts`).  `pubDate` is an
ISO-8601 timestamp, modeled as the value of `new Date(pubDate).getTime()`
(the sort comparator in the source only observes it through `getTime`). -/
structure ProcessedBookmark where
  bookmarkId : String
  title : String
  source : String
  filename : String
  duration : Nat
  pubDate : Nat
deriving Repr, DecidableEq

/-- The `AppState` aggregate (`src/types.ts`): `processedBookmarks` is a
JavaScript `Record<string, ProcessedBookmark>`, kept here as an association
list in property-creation order; `lastRun` is an ISO-8601 timestamp or
`null`, modeled like `pubDate`. -/
structure AppState where
  processedBookmarks : List (String × ProcessedBookmark)
  lastRun : Option Nat
deriving Repr, DecidableEq

/-- `EMPTY_STATE` from `src/state.ts`. -/
def EMPTY_STATE : AppState := ⟨[], none⟩

/-- `bookmarkId in state.processedBookmarks`. -/
def hasKey (m : List (String × ProcessedBookmark)) (k : String) : Bool :=
  m.any (fun p => p.1 == k)

/-- `obj[k] = v` on a JavaScript object: replace in place when the key
exists (property order is unchanged), otherwise append the new property. -/
def jsObjectSet (m : List (String × ProcessedBookmark)) (k : String)
    (v : ProcessedBookmark) : List (String × ProcessedBookmark) :=
  if m.any (fun p => p.1 == k) then
    m.map (fun p => if p.1 == k then (k, v) else p)
  else
    m ++ [(k, v)]

/-- Base-10 value of an all-digits key (the semantic content of
`String.toNat?`, written over the character list so it is kernel-computable). -/
def decimalValue (s : String) : Option Nat :=
  if s.data ≠ [] ∧ s.data.all Char.isDigit then
    some (s.data.foldl (fun n c => n * 10 + (c.toNat - 48)) 0)
  else none

/-- ECMA-262 array-index test for a property key: a canonical base-10
numeral whose value is below 2^32 - 1. -/
def isArrayIndexKey (s : String) : Option Nat :=
  match decimalValue s with
  | some n => if toString n == s && n < 4294967295 then some n else none
  | none => none

/-- Stable insertion (ascending by numeric index) used to model the
integer-key portion of the own-property enumeration order. -/
def insertNumEntry (x : Nat × (String × ProcessedBookmark)) :
    List (Nat × (String × ProcessedBookmark)) → List (Nat × (String × ProcessedBookmark))
  | [] => [x]
  | y :: ys => if y.1 < x.1 then y :: insertNumEntry x ys else x :: y :: ys

/-- Sort the array-index-keyed properties ascending by index (their keys are
distinct, so stability is irrelevant here). -/
def sortNumEntries : List (Nat × (String × ProcessedBookmark)) →
    List (Nat × (String × ProcessedBookmark))
  | [] => []
  | x :: xs => insertNumEntry x (sortNumEntries xs)

/-- ECMA-262 `OrdinaryOwnPropertyKeys` order on a plain object: array-index
keys ascending numerically first, then the remaining string keys in
property-creation order. -/
def jsOwnPropertyOrder (m : List (String × ProcessedBookmark)) :
    List (String × ProcessedBookmark) :=
  (sortNumEntries
    (m.filterMap (fun p => (isArrayIndexKey p.1).map (fun n => (n, p))))).map (fun q => q.2)
    ++ m.filter (fun p => (isArrayIndexKey p.1).isNone)

/-- `Object.values(state.processedBookmarks)`. -/
def jsObjectValues (m : List (String × ProcessedBookmark)) : List ProcessedBookmark :=
  (jsOwnPropertyOrder m).map (fun p => p.2)

/-- Insert into a list already sorted by `pubDate` descending, after every
element with a strictly larger `pubDate` and before the rest; combined with
`sortByPubDateDesc` this is exactly a stable sort, which is what the
ES2019+ `Array.prototype.sort` with comparator
`(a, b) => time(b) - time(a)` produces. -/
def insertByPubDate (x : ProcessedBookmark) :
    List ProcessedBookmark → List ProcessedBookmark
  | [] => [x]
  | y :: ys =>
    if y.pubDate > x.pubDate then y :: insertByPubDate x ys else x :: y :: ys

/-- Stable sort by `pubDate` descending:
`.sort((a, b) => new Date(b.pubDate).getTime() - new Date(a.pubDate).getTime())`. -/
def sortByPubDateDesc : List ProcessedBookmark → List ProcessedBookmark
  | [] => []
  | x :: xs => insertByPubDate x (sortByPubDateDesc xs)

/-- The `StateManager` (`src/state.ts`): `mem` is the private in-memory
`this.state`; `disk` is the current content of `state.json` on durable
storage, abstracted to the aggregate it deserializes to (`none` = file
missing or corrupt).  The byte-level write path is modeled separately below
for the atomic-commit claim. -/
structure StateManager where
  mem : AppState
  disk : Option AppState
deriving Repr, DecidableEq

/-- `load()`: read and parse `state.json`; a missing or corrupt file yields
the empty aggregate (the `catch` branch). -/
def load (disk : Option AppState) : AppState :=
  disk.getD EMPTY_STATE

/-- The constructor `new StateManager(dataDir)`: `this.state = this.load()`. -/
def newStateManager (disk : Option AppState) : StateManager :=
  ⟨load disk, disk⟩

/-- `save()`: persist the full in-memory aggregate (write temp, rename). -/
def save (sm : StateManager) : StateManager :=
  ⟨sm.mem, some sm.mem⟩

/-- `isProcessed(bookmarkId)`: `bookmarkId in this.state.processedBookmarks`
— a pure read of the in-memory copy. -/
def isProcessed (sm : StateManager) (bookmarkId : String) : Bool :=
  hasKey sm.mem.processedBookmarks bookmarkId

/-- `addProcessed(bookmark)`: write the record under its id, set `lastRun`
to now, and `save()`. -/
def addProcessed (now : Nat) (sm : StateManager) (b : ProcessedBookmark) :
    StateManager :=
  save ⟨⟨jsObjectSet sm.mem.processedBookmarks b.bookmarkId b, some now⟩, sm.disk⟩

/-- `updateLastRun()`: set `lastRun` to now and `save()`. -/
def updateLastRun (now : Nat) (sm : StateManager) : StateManager :=
  save ⟨⟨sm.mem.processedBookmarks, some now⟩, sm.disk⟩

/-- `getProcessedBookmarks()`: re-read from disk (`this.state = this.load()`),
then return `Object.values(...)` sorted by `pubDate` descending. -/
def getProcessedBookmarks (sm : StateManager) :
    StateManager × List ProcessedBookmark :=
  let st := load sm.disk
  (⟨st, sm.disk⟩, sortByPubDateDesc (jsObjectValues st.processedBookmarks))

/-- `getLastRun()`: re-read from disk, return `lastRun`. -/
def getLastRun (sm : StateManager) : StateManager × Option Nat :=
  let st := load sm.disk
  (⟨st, sm.disk⟩, st.lastRun)

/-! ## Byte-level model of the atomic commit (`save` in `src/state.ts`) -/

/-- Escape a character for a JSON string literal (quote and backslash; the
remaining JSON escapes are irrelevant to the claims proved here). -/
def escChar (c : Char) : List Char :=
  if c == '"' || c == '\\' then ['\\', c] else [c]

/-- A JSON string literal. -/
def jsonStr (s : String) : String :=
  "\"" ++ String.mk (s.data.flatMap escChar) ++ "\""

/-- Serialization of one `ProcessedBookmark`, modeling its
`JSON.stringify` rendering. -/
def stringifyPB (b : ProcessedBookmark) : String :=
  "\x7b\"bookmarkId\":" ++ jsonStr b.bookmarkId
    ++ ",\"title\":" ++ jsonStr b.title
    ++ ",\"source\":" ++ jsonStr b.source
    ++ ",\"filename\":" ++ jsonStr b.filename
    ++ ",\"duration\":" ++ toString b.duration
    ++ ",\"pubDate\":" ++ toString b.pubDate ++ "\x7d"

/-- Serialization of the full aggregate: `JSON.stringify(this.state, null, 2)`
(modulo whitespace, which is irrelevant to the atomicity claim — only that
the serialization covers the complete aggregate matters). -/
def stringifyState (st : AppState) : String :=
  "\x7b\"processedBookmarks\":\x7b"
    ++ String.intercalate ","
        (st.processedBookmarks.map (fun p => jsonStr p.1 ++ ":" ++ stringifyPB p.2))
    ++ "\x7d,\"lastRun\":"
    ++ (match st.lastRun with
        | some n => toString n
        | none => "null")
    ++ "\x7d"

/-- The two files `save()` touches: the canonical `state.json` and the
temporary `state.json.tmp` (`none` = file does not exist). -/
structure DiskFiles where
  canonical : Option String
  tmp : Option String
deriving Repr, DecidableEq

/-- Where a crash interrupts `save()` — before the temp write, in the middle
of the temp write (only a prefix of the new bytes reached the temp file),
after the temp write but before the rename, or not at all. -/
inductive CrashPoint where
  | beforeWrite
  | duringWrite (n : Nat)
  | beforeRename
  | completed
deriving Repr, DecidableEq

/-- `save()` at the byte level under a crash: write
`JSON.stringify(this.state)` to `state.json.tmp`, then atomically rename the
temp file over `state.json` (`writeFileSync` + `renameSync`). -/
def saveWithCrash (st : AppState) (d : DiskFiles) : CrashPoint → DiskFiles
  | .beforeWrite => d
  | .duringWrite n => ⟨d.canonical, some ((stringifyState st).take n)⟩
  | .beforeRename => ⟨d.canonical, some (stringifyState st)⟩
  | .completed => ⟨some (stringifyState st), none⟩

/-! ## Pipeline orchestrator (`src/worker.ts`)

The per-run control flow of `runPipeline` is embedded with the external
collaborators (Instapaper client, parser, translator, TTS engine) as an
oracle record, and with the remote work made observable as an event trace.
The bounded worker pool (`MAX_CONCURRENCY = 2`) only interleaves the
per-item steps; which items are dispatched, which records are committed, and
the final store content are identical under every interleaving, so the items
are processed here in queue order. -/

/-- An `InstapaperBookmark` as consumed by `runPipeline`
(`bookmark_id`, `title`, `url`). -/
structure Bookmark where
  bookmark_id : Nat
  title : String
  url : String
deriving Repr, DecidableEq

/-- Observable events of one run: a translation of item `id` (the
title-and-body translation stage), a synthesis for item `id`, a state commit
(`addProcessed`) for item `id`, and the end-of-run `updateLastRun`. -/
inductive Ev where
  | translateItem (id : String)
  | synthesizeItem (id : String)
  | commitItem (id : String)
  | touchLastRun
deriving Repr, DecidableEq

/-- Whether a store write performed at this event updates `lastRun`: both
`addProcessed` and `updateLastRun` set `lastRun` to now. -/
def updatesLastRun : Ev → Bool
  | .commitItem _ => true
  | .touchLastRun => true
  | _ => false

/-- Outcomes of the external collaborators for one run, keyed by item id.
`fetchParse` is `getBookmarkText` + `parseArticle` (`none` = a throw;
`some (title, source)` the parsed title and source name); `translateStage`
is the title-and-body translation of step 3 (`none` = `TranslationFailed`
after retries; `some t` the translated title, which is what the committed
record retains); `synth` is the TTS call (`none` = a throw; `some d` the
estimated duration). -/
structure Collab where
  fetchParse : String → Option (String × String)
  translateStage : String → Option String
  synth : String → Option Nat

/-- `processBookmark` from `src/worker.ts`: fetch → parse → (optionally)
translate → synthesize → `addProcessed`.  Any failure is caught at the item
boundary: the state is left unchanged and no further steps run for the item.
`translationEnabled` is the truthiness of `config.translation.api_key`;
`clock k` is the timestamp of the k-th commit of the run (the source reads
`new Date()` at commit time). -/
def processBookmark (translationEnabled : Bool) (collab : Collab)
    (clock : Nat → Nat) (sm : StateManager) (b : Bookmark) (k : Nat) :
    StateManager × List Ev × Nat :=
  let id := toString b.bookmark_id
  match collab.fetchParse id with
  | none => (sm, [], k)
  | some (parsedTitle, src) =>
    if translationEnabled then
      match collab.translateStage id with
      | none => (sm, [.translateItem id], k)
      | some translatedTitle =>
        match collab.synth id with
        | none => (sm, [.translateItem id, .synthesizeItem id], k)
        | some dur =>
          let fname := generateFilename id translatedTitle
          let rec_ : ProcessedBookmark :=
            ⟨id, translatedTitle, src, fname, dur, clock k⟩
          (addProcessed (clock k) sm rec_,
            [.translateItem id, .synthesizeItem id, .commitItem id], k + 1)
    else
      match collab.synth id with
      | none => (sm, [.synthesizeItem id], k)
      | some dur =>
        let fname := generateFilename id parsedTitle
        let rec_ : ProcessedBookmark :=
          ⟨id, parsedTitle, src, fname, dur, clock k⟩
        (addProcessed (clock k) sm rec_,
          [.synthesizeItem id, .commitItem id], k + 1)

/-- Drain the dispatch queue: run `processBookmark` for each new bookmark,
threading the store and the commit counter and concatenating event traces. -/
def runItems (translationEnabled : Bool) (collab : Collab) (clock : Nat → Nat) :
    List Bookmark → StateManager → Nat → StateManager × List Ev × Nat
  | [], sm, k => (sm, [], k)
  | b :: rest, sm, k =>
    let r1 := processBookmark translationEnabled collab clock sm b k
    let r2 := runItems translationEnabled collab clock rest r1.1 r1.2.2
    (r2.1, r1.2.1 ++ r2.2.1, r2.2.2)

/-- The `bookmark_id` deduplication applied when tag filters are configured
(the `seen : Set<number>` filter in `runPipeline`). -/
def dedupById : List Bookmark → List Nat → List Bookmark
  | [], _ => []
  | b :: rest, seen =>
    if seen.contains b.bookmark_id then dedupById rest seen
    else b :: dedupById rest (b.bookmark_id :: seen)

/-- `runPipeline` from `src/worker.ts`: discover bookmarks (`items` is what
the Instapaper client returned — the concatenation over configured tags, or
the unfiltered list — and `tagFiltered` selects the branch that deduplicates
by `bookmark_id`), filter out already-processed ids, and either
`updateLastRun` immediately (nothing new) or process every new bookmark and
then `updateLastRun`.  Returns the final store and the run's event trace. -/
def runPipeline (translationEnabled : Bool) (collab : Collab)
    (clock : Nat → Nat) (tagFiltered : Bool) (items : List Bookmark)
    (sm : StateManager) : StateManager × List Ev :=
  let bookmarks := if tagFiltered then dedupById items [] else items
  let newBookmarks :=
    bookmarks.filter (fun b => !isProcessed sm (toString b.bookmark_id))
  if newBookmarks.isEmpty then
    (updateLastRun (clock 0) sm, [.touchLastRun])
  else
    let r := runItems translationEnabled collab clock newBookmarks sm 0
    (updateLastRun (clock r.2.2) r.1, r.2.1 ++ [.touchLastRun])

/-! ## Helper lemmas about the state mapping -/

/-- Property access `obj[k]` on the modeled JavaScript object. -/
def lookupKey (m : List (String × ProcessedBookmark)) (k : String) :
    Option ProcessedBookmark :=
  match m with
  | [] => none
  | p :: rest => if p.1 = k then some p.2 else lookupKey rest k

theorem lookupKey_jsObjectSet_self (m : List (String × ProcessedBookmark))
    (k : String) (v : ProcessedBookmark) :
    lookupKey (jsObjectSet m k v) k = some v := by
  unfold jsObjectSet
  by_cases h : m.any (fun p => p.1 == k) = true
  · rw [if_pos h]
    induction m with
    | nil => simp at h
    | cons p rest ih =>
      by_cases hp : p.1 = k
      · simp [lookupKey, hp]
      · have hp' : (p.1 == k) = false := by simp [hp]
        simp only [List.any_cons, hp', Bool.false_or] at h
        simp only [List.map_cons, hp', Bool.false_eq_true, if_false, lookupKey]
        rw [if_neg hp]
        exact ih h
  · rw [if_neg h]
    have h' : m.any (fun p => p.1 == k) = false := by
      revert h; cases m.any (fun p => p.1 == k) <;> simp
    clear h
    induction m with
    | nil => simp [lookupKey]
    | cons p rest ih =>
      simp only [List.any_cons, Bool.or_eq_false_iff] at h'
      have hp : p.1 ≠ k := by
        have := h'.1; simpa using this
      simp only [List.cons_append, lookupKey]
      rw [if_neg hp]
      exact ih h'.2

theorem lookupKey_jsObjectSet_other (m : List (String × ProcessedBookmark))
    (k k' : String) (v : ProcessedBookmark) (hne : k' ≠ k) :
    lookupKey (jsObjectSet m k v) k' = lookupKey m k' := by
  unfold jsObjectSet
  by_cases h : m.any (fun p => p.1 == k) = true
  · rw [if_pos h]
    clear h
    induction m with
    | nil => rfl
    | cons p rest ih =>
      by_cases hp : p.1 = k
      · have hk' : k ≠ k' := fun e => hne e.symm
        have hp' : p.1 ≠ k' := by rw [hp]; exact hk'
        have hpb : (p.1 == k) = true := by simp [hp]
        simp only [List.map_cons, hpb, if_true, lookupKey]
        rw [if_neg hk', if_neg hp']
        exact ih
      · have hpb : (p.1 == k) = false := by simp [hp]
        simp only [List.map_cons, hpb, Bool.false_eq_true, if_false, lookupKey]
        by_cases hpk : p.1 = k'
        · rw [if_pos hpk, if_pos hpk]
        · rw [if_neg hpk, if_neg hpk]
          exact ih
  · rw [if_neg h]
    clear h
    induction m with
    | nil =>
      simp only [List.nil_append, lookupKey]
      rw [if_neg (fun e => hne e.symm)]
    | cons p rest ih =>
      simp only [List.cons_append, lookupKey]
      by_cases hpk : p.1 = k'
      · rw [if_pos hpk, if_pos hpk]
      · rw [if_neg hpk, if_neg hpk]
        exact ih

/-! ## Claim C2 — atomic commit -/

/-- C2: every persist serializes the full aggregate to the temporary file
and then renames it over `state.json`; a crash at any point leaves the
canonical file either as the complete old content or the complete new
serialization, never truncated, and any crash before the rename leaves
it byte-for-byte unchanged, so a subsequent read observes the prior state
fully intact. -/
theorem save_atomic_commit (st : AppState) (d : DiskFiles) (c : CrashPoint) :
    ((saveWithCrash st d c).canonical = d.canonical ∨
      (saveWithCrash st d c).canonical = some (stringifyState st)) ∧
    (c ≠ CrashPoint.completed → (saveWithCrash st d c).canonical = d.canonical) ∧
    (c = CrashPoint.completed →
      (saveWithCrash st d c).canonical = some (stringifyState st)) := by
  cases c <;> simp [saveWithCrash]

/-- Witness for C2: a crash between the temp write and the rename leaves the
old canonical content in place. -/
theorem save_atomic_commit_witness :
    (CrashPoint.beforeRename ≠ CrashPoint.completed) ∧
    (saveWithCrash EMPTY_STATE ⟨some "old", none⟩ CrashPoint.beforeRename).canonical
      = some "old" :=
  ⟨by decide,
    (save_atomic_commit EMPTY_STATE ⟨some "old", none⟩ CrashPoint.beforeRename).2.1
      (by decide)⟩

/-! ## Claim C3 — isProcessed does not re-read storage -/

/-- C3 counterexample: a manager whose in-memory aggregate is empty while
the persisted file maps id "1" (the situation after an out-of-process
writer commits once this manager has been constructed).  `isProcessed "1"`
returns `false` even though "1" is a key of the persisted episodes mapping
at the moment of the call, refuting the claim that `isProcessed` re-reads
from durable storage on each call. -/
theorem isProcessed_stale_read_counterexample :
    isProcessed
      ⟨EMPTY_STATE, some ⟨[("1", ⟨"1", "t", "s", "f.mp3", 3, 50⟩)], none⟩⟩ "1" = false ∧
    hasKey
      (load (some ⟨[("1", ⟨"1", "t", "s", "f.mp3", 3, 50⟩)], none⟩)).processedBookmarks
      "1" = true := by
  constructor
  · rfl
  · rfl

/-- C3 (amended): `isProcessed(id)` consults only the in-memory aggregate —
its value is independent of the persisted file's current content — and for a
freshly constructed manager it returns true iff id was a key of the episodes
mapping as loaded from storage at construction time.  Cross-process writes
made after construction are therefore not observed by `isProcessed`. -/
theorem isProcessed_uses_in_memory_state :
    (∀ (mem : AppState) (d d' : Option AppState) (id : String),
      isProcessed ⟨mem, d⟩ id = isProcessed ⟨mem, d'⟩ id) ∧
    (∀ (d : Option AppState) (id : String),
      isProcessed (newStateManager d) id = hasKey (load d).processedBookmarks id) := by
  exact ⟨fun _ _ _ _ => rfl, fun _ _ => rfl⟩

/-! ## Claim C10 — the store does not enforce create-once immutability -/

/-- C10: `addProcessed` with a bookmark whose id is already a key silently
replaces the stored record, sets `lastRun` to now, and persists — the commit
operation itself has no guard against reprocessing an existing id. -/
theorem addProcessed_overwrites_existing (sm : StateManager)
    (b : ProcessedBookmark) (now : Nat)
    (h : isProcessed sm b.bookmarkId = true) :
    lookupKey (addProcessed now sm b).mem.processedBookmarks b.bookmarkId = some b ∧
    (addProcessed now sm b).mem.lastRun = some now ∧
    (addProcessed now sm b).disk = some (addProcessed now sm b).mem := by
  refine ⟨?_, rfl, rfl⟩
  exact lookupKey_jsObjectSet_self _ _ _

/-- Witness for C10: overwriting the record stored under id "1". -/
theorem addProcessed_overwrites_existing_witness :
    (isProcessed
        ⟨⟨[("1", ⟨"1", "t", "s", "f.mp3", 3, 50⟩)], none⟩,
          some ⟨[("1", ⟨"1", "t", "s", "f.mp3", 3, 50⟩)], none⟩⟩
        (ProcessedBookmark.bookmarkId ⟨"1", "t2", "s2", "g.mp3", 9, 80⟩) = true) ∧
    lookupKey
      (addProcessed 99
        ⟨⟨[("1", ⟨"1", "t", "s", "f.mp3", 3, 50⟩)], none⟩,
          some ⟨[("1", ⟨"1", "t", "s", "f.mp3", 3, 50⟩)], none⟩⟩
        ⟨"1", "t2", "s2", "g.mp3", 9, 80⟩).mem.processedBookmarks "1"
      = some ⟨"1", "t2", "s2", "g.mp3", 9, 80⟩ := by
  refine ⟨by decide, ?_⟩
  exact (addProcessed_overwrites_existing
    ⟨⟨[("1", ⟨"1", "t", "s", "f.mp3", 3, 50⟩)], none⟩,
      some ⟨[("1", ⟨"1", "t", "s", "f.mp3", 3, 50⟩)], none⟩⟩
    ⟨"1", "t2", "s2", "g.mp3", 9, 80⟩ 99 (by decide)).1

/-! ## Claim C5 — language-skip policy -/

/-- C5 counterexample: with `skip_if_same: false` in the configuration (a
supported setting — the repository's own translator tests run with it), a
text whose identified language ("swe") equals the code mapped from the
target name "swedish" is still sent to the remote endpoint: one API call is
made and the skip is not taken, refuting the unconditional claim that such
texts are returned unchanged with zero remote calls. -/
theorem translate_skip_requires_flag_counterexample :
    (fun _ => "swe" : String → String) "hello"
        = targetCodeOf ⟨"", "", "", "swedish", false⟩ ∧
    translateText (fun _ => "swe") (fun s => s)
        ⟨"", "", "", "swedish", false⟩ "hello"
      = ⟨"hello", 1, false⟩ := by
  constructor
  · decide
  · decide

/-- C5 (amended): when the `skip_if_same` flag is enabled, a text whose
identified language code equals the code mapped from the configured target
language name is returned byte-for-byte unchanged with zero remote API
calls; and for a target language name absent from the fixed name-to-code
table the skip never applies (the identifier never returns the empty
string), so neither `translateText` nor `translateTitle` skips, and a title
is always sent in exactly one call. -/
theorem translate_skip_policy (detect : String → String) (api : String → String)
    (cfg : TranslationConfig) (text : String) :
    (cfg.skip_if_same = true → detect text = targetCodeOf cfg →
      translateText detect api cfg text = ⟨text, 0, true⟩ ∧
      translateTitle detect api cfg text = ⟨text, 0, true⟩) ∧
    (LANG_NAME_TO_CODE.lookup (toLowerStr cfg.target_language) = none →
      detect text ≠ "" →
      (translateText detect api cfg text).skipped = false ∧
      (translateTitle detect api cfg text).skipped = false ∧
      (translateTitle detect api cfg text).apiCalls = 1) := by
  constructor
  · intro hflag hdet
    constructor
    · unfold translateText
      rw [hflag, hdet]
      simp
    · unfold translateTitle
      rw [hflag, hdet]
      simp
  · intro htable hdet
    have hcode : targetCodeOf cfg = "" := by
      unfold targetCodeOf
      rw [htable]
      rfl
    have hne : (detect text == targetCodeOf cfg) = false := by
      rw [hcode]
      simpa using hdet
    refine ⟨?_, ?_, ?_⟩
    · unfold translateText
      rw [hne]
      simp
    · unfold translateTitle
      rw [hne]
      simp
    · unfold translateTitle
      rw [hne]
      simp

/-- Witness for C5: target "svenska" with flag on skips a text identified as
"swe"; target "klingon" (absent from the table) never skips. -/
theorem translate_skip_policy_witness :
    (translateText (fun _ => "swe") (fun s => s)
        ⟨"", "", "", "svenska", true⟩ "hej" = ⟨"hej", 0, true⟩) ∧
    (translateTitle (fun _ => "swe") (fun s => s)
        ⟨"", "", "", "klingon", true⟩ "hej").apiCalls = 1 :=
  ⟨((translate_skip_policy (fun _ => "swe") (fun s => s)
      ⟨"", "", "", "svenska", true⟩ "hej").1 rfl (by decide)).1,
    ((translate_skip_policy (fun _ => "swe") (fun s => s)
      ⟨"", "", "", "klingon", true⟩ "hej").2 (by decide) (by decide)).2.2⟩

/-! ## Claim C6 — retry with exponential backoff -/

/-- C6: each remote translation call makes at most 3 attempts; a failed
attempt is followed by a backoff sleep of 1s, 2s, 4s respectively; the first
successful attempt returns the trimmed first-completion text and stops; if
all 3 attempts fail the call fails with a translation-failed error carrying
the last underlying cause, after sleeps of exactly 1s, 2s, 4s. -/
theorem callChatCompletions_retry_policy (oracle : Nat → Except String String) :
    (callChatCompletions oracle).attemptsMade ≤ 3 ∧
    (∀ i, i < 3 → (∀ j, j < i → ∃ e, oracle j = .error e) →
      ∀ c, oracle i = .ok c →
        callChatCompletions oracle
          = ⟨.ok (trimStr c), (List.range i).map backoffDelayMs, i + 1⟩) ∧
    ((∀ j, j < 3 → ∃ e, oracle j = .error e) →
      ∃ e2, oracle 2 = .error e2 ∧
        callChatCompletions oracle
          = ⟨.error ("Translation failed after 3 attempts: " ++ e2),
              [1000, 2000, 4000], 3⟩) := by
  refine ⟨?_, ?_, ?_⟩
  · unfold callChatCompletions callAttempts
    cases oracle 0 <;> simp <;>
      (unfold callAttempts; cases oracle 1 <;> simp <;>
        (unfold callAttempts; cases oracle 2 <;> simp [callAttempts]))
  · intro i hi hprev c hok
    have hcases : i = 0 ∨ i = 1 ∨ i = 2 := by omega
    rcases hcases with rfl | rfl | rfl
    · unfold callChatCompletions callAttempts
      rw [hok]
      simp [List.range, List.range.loop]
    · obtain ⟨e0, he0⟩ := hprev 0 (by omega)
      unfold callChatCompletions callAttempts
      rw [he0]
      unfold callAttempts
      rw [hok]
      simp [List.range, List.range.loop, backoffDelayMs]
    · obtain ⟨e0, he0⟩ := hprev 0 (by omega)
      obtain ⟨e1, he1⟩ := hprev 1 (by omega)
      unfold callChatCompletions callAttempts
      rw [he0]
      unfold callAttempts
      rw [he1]
      unfold callAttempts
      rw [hok]
      simp [List.range, List.range.loop, backoffDelayMs]
  · intro hall
    obtain ⟨e0, he0⟩ := hall 0 (by omega)
    obtain ⟨e1, he1⟩ := hall 1 (by omega)
    obtain ⟨e2, he2⟩ := hall 2 (by omega)
    refine ⟨e2, he2, ?_⟩
    unfold callChatCompletions callAttempts
    rw [he0]
    unfold callAttempts
    rw [he1]
    unfold callAttempts
    rw [he2]
    simp [callAttempts, lastErrorMsg, backoffDelayMs]

/-- Witness for C6: an endpoint failing twice then succeeding yields the
trimmed successful result after exactly 3 attempts with sleeps 1s then 2s. -/
theorem callChatCompletions_retry_policy_witness :
    callChatCompletions
        (fun i => if i = 2 then .ok " res " else .error "boom")
      = ⟨.ok (trimStr " res "), (List.range 2).map backoffDelayMs, 3⟩ :=
  (callChatCompletions_retry_policy
      (fun i => if i = 2 then .ok " res " else .error "boom")).2.1
    2 (by omega)
    (fun j hj => ⟨"boom", by
      have : j = 0 ∨ j = 1 := by omega
      rcases this with rfl | rfl <;> rfl⟩)
    " res " rfl

/-! ## Claim C9 — audio filename generation -/

theorem collapseGo_chars (l : List Char) :
    ∀ (b : Bool), ∀ c ∈ collapseGo b l, isLowerAlnum c = true ∨ c = '-' := by
  induction l with
  | nil => intro b c hc; simp [collapseGo] at hc
  | cons c rest ih =>
    intro b x hx
    unfold collapseGo at hx
    by_cases h : isLowerAlnum c = true
    · rw [if_pos h] at hx
      rcases List.mem_cons.mp hx with rfl | hx'
      · exact Or.inl h
      · exact ih false x hx'
    · rw [if_neg h] at hx
      cases b with
      | true =>
        simp only [if_true] at hx
        exact ih true x hx
      | false =>
        simp only [Bool.false_eq_true, if_false] at hx
        rcases List.mem_cons.mp hx with rfl | hx'
        · exact Or.inr rfl
        · exact ih true x hx'

theorem collapseNonAlnum_chars (l : List Char) :
    ∀ c ∈ collapseNonAlnum l, isLowerAlnum c = true ∨ c = '-' :=
  collapseGo_chars l false

theorem trimDashes_subset (l : List Char) : ∀ c ∈ trimDashes l, c ∈ l := by
  intro c hc
  unfold trimDashes at hc
  rw [List.mem_reverse] at hc
  have h1 := (List.dropWhile_suffix (fun x => x == '-')).subset hc
  rw [List.mem_reverse] at h1
  exact (List.dropWhile_suffix (fun x => x == '-')).subset h1

theorem slugOf_length_le (title : String) : (slugOf title).length ≤ 60 := by
  unfold slugOf
  simp only [String.length]
  calc (List.take 60 _).length ≤ 60 := by
        simpa using List.length_take_le 60 _

theorem slugOf_chars (title : String) :
    ∀ c ∈ (slugOf title).data, isLowerAlnum c = true ∨ c = '-' := by
  intro c hc
  unfold slugOf at hc
  simp only [String.mk] at hc
  have h1 : c ∈ trimDashes (collapseNonAlnum
      (((title.data.flatMap nfdDecompose).filter
        (fun x => !isCombiningMark x)).map Char.toLower)) :=
    List.mem_of_mem_take hc
  exact collapseNonAlnum_chars _ c (trimDashes_subset _ c h1)

/-- Splitting at a separator character absent from both left parts is
unambiguous. -/
theorem sepSplit_unique : ∀ (l1 l2 r1 r2 : List Char),
    '-' ∉ l1 → '-' ∉ l2 →
    l1 ++ '-' :: r1 = l2 ++ '-' :: r2 → l1 = l2 ∧ r1 = r2 := by
  intro l1
  induction l1 with
  | nil =>
    intro l2 r1 r2 _ h2 e
    cases l2 with
    | nil => simpa using e
    | cons c l2' =>
      simp only [List.nil_append, List.cons_append, List.cons.injEq] at e
      exact absurd (show '-' ∈ c :: l2' by
        rw [← e.1]; exact List.mem_cons_self '-' l2') h2
  | cons c l1' ih =>
    intro l2 r1 r2 h1 h2 e
    cases l2 with
    | nil =>
      simp only [List.cons_append, List.nil_append, List.cons.injEq] at e
      exact absurd (show '-' ∈ c :: l1' by
        rw [e.1]; exact List.mem_cons_self '-' l1') h1
    | cons d l2' =>
      simp only [List.cons_append, List.cons.injEq] at e
      have h1' : '-' ∉ l1' := fun hm => h1 (List.mem_cons_of_mem c hm)
      have h2' : '-' ∉ l2' := fun hm => h2 (List.mem_cons_of_mem d hm)
      obtain ⟨el, er⟩ := ih l2' r1 r2 h1' h2' e.2
      exact ⟨by rw [e.1, el], er⟩

/-- C9: `generateFilename` is the item id, a dash, the normalized slug of
the translated title (diacritics stripped, lowercased, non-alphanumeric
runs collapsed to single dashes, dashes trimmed at the ends, capped at 60
characters), and the `.mp3` suffix; the slug contains only `[a-z0-9-]`;
and two items with distinct dash-free ids (the pipeline's ids are
`String(bookmark_id)` — decimal digits only) always receive distinct
filenames, because the id prefixes every name. -/
theorem generateFilename_slug_and_distinct :
    (∀ id title,
      generateFilename id title = id ++ "-" ++ slugOf title ++ ".mp3") ∧
    (∀ title, (slugOf title).length ≤ 60 ∧
      ∀ c ∈ (slugOf title).data, isLowerAlnum c = true ∨ c = '-') ∧
    (∀ id1 id2 t1 t2, '-' ∉ id1.data → '-' ∉ id2.data → id1 ≠ id2 →
      generateFilename id1 t1 ≠ generateFilename id2 t2) := by
  refine ⟨fun _ _ => rfl, fun t => ⟨slugOf_length_le t, slugOf_chars t⟩, ?_⟩
  intro id1 id2 t1 t2 h1 h2 hne he
  have hdata : (generateFilename id1 t1).data = (generateFilename id2 t2).data :=
    congrArg String.data he
  have hsplit : id1.data ++ '-' :: ((slugOf t1).data ++ (".mp3" : String).data)
      = id2.data ++ '-' :: ((slugOf t2).data ++ (".mp3" : String).data) := by
    have e1 : (generateFilename id1 t1).data
        = id1.data ++ '-' :: ((slugOf t1).data ++ (".mp3" : String).data) := by
      unfold generateFilename
      simp [String.data_append]
    have e2 : (generateFilename id2 t2).data
        = id2.data ++ '-' :: ((slugOf t2).data ++ (".mp3" : String).data) := by
      unfold generateFilename
      simp [String.data_append]
    rw [← e1, ← e2]
    exact hdata
  have := (sepSplit_unique _ _ _ _ h1 h2 hsplit).1
  exact hne (by cases id1; cases id2; exact congrArg String.mk this)

/-- Witness for C9: ids "12" and "3" with accented titles give distinct
well-formed filenames. -/
theorem generateFilename_slug_and_distinct_witness :
    ('-' ∉ ("12" : String).data) ∧ ('-' ∉ ("3" : String).data) ∧
    ("12" : String) ≠ "3" ∧
    generateFilename "12" "Héllo Wörld!" ≠ generateFilename "3" "Héllo Wörld!" ∧
    generateFilename "12" "Héllo Wörld!" = "12-hello-world.mp3" :=
  ⟨by decide, by decide, by decide,
    generateFilename_slug_and_distinct.2.2 "12" "3" "Héllo Wörld!" "Héllo Wörld!"
      (by decide) (by decide) (by decide),
    by decide⟩

/-! ## Claim C8 — episode listing order -/

theorem mem_insertByPubDate (x a : ProcessedBookmark)
    (l : List ProcessedBookmark) (h : a ∈ insertByPubDate x l) :
    a = x ∨ a ∈ l := by
  induction l with
  | nil => simpa [insertByPubDate] using h
  | cons y ys ih =>
    unfold insertByPubDate at h
    by_cases hc : y.pubDate > x.pubDate
    · rw [if_pos hc] at h
      rcases List.mem_cons.mp h with rfl | h'
      · exact Or.inr (List.mem_cons_self _ _)
      · rcases ih h' with rfl | h''
        · exact Or.inl rfl
        · exact Or.inr (List.mem_cons_of_mem _ h'')
    · rw [if_neg hc] at h
      rcases List.mem_cons.mp h with rfl | h'
      · exact Or.inl rfl
      · exact Or.inr h'

theorem insertByPubDate_pairwise (x : ProcessedBookmark)
    (l : List ProcessedBookmark)
    (h : l.Pairwise (fun a b => b.pubDate ≤ a.pubDate)) :
    (insertByPubDate x l).Pairwise (fun a b => b.pubDate ≤ a.pubDate) := by
  induction l with
  | nil => simp [insertByPubDate]
  | cons y ys ih =>
    rw [List.pairwise_cons] at h
    unfold insertByPubDate
    by_cases hc : y.pubDate > x.pubDate
    · rw [if_pos hc]
      rw [List.pairwise_cons]
      refine ⟨?_, ih h.2⟩
      intro a ha
      rcases mem_insertByPubDate x a ys ha with rfl | h'
      · omega
      · exact h.1 a h'
    · rw [if_neg hc]
      rw [List.pairwise_cons]
      refine ⟨?_, List.pairwise_cons.mpr h⟩
      intro a ha
      rcases List.mem_cons.mp ha with rfl | h'
      · omega
      · have := h.1 a h'
        omega

theorem sortByPubDateDesc_pairwise (l : List ProcessedBookmark) :
    (sortByPubDateDesc l).Pairwise (fun a b => b.pubDate ≤ a.pubDate) := by
  induction l with
  | nil => simp [sortByPubDateDesc]
  | cons x xs ih => exact insertByPubDate_pairwise x _ ih

theorem insertByPubDate_filter (x : ProcessedBookmark)
    (l : List ProcessedBookmark) (t : Nat) :
    (insertByPubDate x l).filter (fun b => b.pubDate == t)
      = if x.pubDate == t then
          x :: l.filter (fun b => b.pubDate == t)
        else l.filter (fun b => b.pubDate == t) := by
  induction l with
  | nil =>
    cases hx : (x.pubDate == t) <;> simp [insertByPubDate, List.filter, hx]
  | cons y ys ih =>
    unfold insertByPubDate
    by_cases hc : y.pubDate > x.pubDate
    · rw [if_pos hc]
      cases hx : (x.pubDate == t) with
      | true =>
        have hyt : (y.pubDate == t) = false := by
          simp only [beq_eq_false_iff_ne, ne_eq]
          have hxt : x.pubDate = t := by simpa using hx
          omega
        simp [List.filter_cons, hyt, ih, hx]
      | false =>
        simp [List.filter_cons, ih, hx]
    · rw [if_neg hc]
      cases hx : (x.pubDate == t) <;> simp [List.filter_cons, hx]

theorem sortByPubDateDesc_stable (l : List ProcessedBookmark) (t : Nat) :
    (sortByPubDateDesc l).filter (fun b => b.pubDate == t)
      = l.filter (fun b => b.pubDate == t) := by
  induction l with
  | nil => rfl
  | cons x xs ih =>
    unfold sortByPubDateDesc
    rw [insertByPubDate_filter]
    by_cases hx : x.pubDate = t
    · have hx' : (x.pubDate == t) = true := by simpa using hx
      simp [List.filter_cons, hx', ih]
    · have hx' : (x.pubDate == t) = false := by simpa using hx
      simp [List.filter_cons, hx', ih]

theorem insertByPubDate_perm (x : ProcessedBookmark)
    (l : List ProcessedBookmark) : (insertByPubDate x l).Perm (x :: l) := by
  induction l with
  | nil => simp [insertByPubDate]
  | cons y ys ih =>
    unfold insertByPubDate
    by_cases hc : y.pubDate > x.pubDate
    · rw [if_pos hc]
      exact (List.Perm.cons y ih).trans (List.Perm.swap x y ys)
    · rw [if_neg hc]

theorem sortByPubDateDesc_perm (l : List ProcessedBookmark) :
    (sortByPubDateDesc l).Perm l := by
  induction l with
  | nil => rfl
  | cons x xs ih =>
    exact (insertByPubDate_perm x _).trans (List.Perm.cons x ih)

/-- C8 counterexample: two pipeline-shaped ids above the array-index range
("4294967296" and "4294967295" — `String(bookmark_id)` for large bookmark
ids) stored in descending-id creation order with equal `pubDate`.
`getProcessedBookmarks` returns them in object key-creation order —
descending id — whereas the claim requires ties broken by id ascending
("4294967295" before "4294967296"). -/
theorem listEpisodes_tie_order_counterexample :
    ((getProcessedBookmarks
        ⟨EMPTY_STATE, some ⟨[
          ("4294967296", ⟨"4294967296", "a", "s", "f1", 1, 10⟩),
          ("4294967295", ⟨"4294967295", "b", "s", "f2", 1, 10⟩)], none⟩⟩).2.map
      (fun b => b.bookmarkId) = ["4294967296", "4294967295"]) ∧
    ((getProcessedBookmarks
        ⟨EMPTY_STATE, some ⟨[
          ("4294967296", ⟨"4294967296", "a", "s", "f1", 1, 10⟩),
          ("4294967295", ⟨"4294967295", "b", "s", "f2", 1, 10⟩)], none⟩⟩).2.map
      (fun b => b.pubDate) = [10, 10]) ∧
    (["4294967296", "4294967295"] ≠ (["4294967295", "4294967296"] : List String)) := by
  refine ⟨by decide, by decide, by decide⟩

/-- C8 (amended): `getProcessedBookmarks` re-reads the persisted state and
returns the episodes sorted by `publishedAt` (`pubDate`) descending; ties
are returned in the object's own-property enumeration order (array-index
keys ascending numerically, then remaining keys in creation order) — the
order produced by the stable `Array.prototype.sort` — not by id ascending.
The result is a permutation of the stored episodes. -/
theorem getProcessedBookmarks_sorted_stable (sm : StateManager) :
    ((getProcessedBookmarks sm).2.Pairwise (fun a b => b.pubDate ≤ a.pubDate)) ∧
    (∀ t, (getProcessedBookmarks sm).2.filter (fun b => b.pubDate == t)
      = (jsObjectValues (load sm.disk).processedBookmarks).filter
          (fun b => b.pubDate == t)) ∧
    ((getProcessedBookmarks sm).2.Perm
      (jsObjectValues (load sm.disk).processedBookmarks)) :=
  ⟨sortByPubDateDesc_pairwise _,
    fun t => sortByPubDateDesc_stable _ t,
    sortByPubDateDesc_perm _⟩

/-! ## Pipeline trace lemmas (for C1 and C4) -/

theorem processBookmark_other_id (tE : Bool) (collab : Collab)
    (clock : Nat → Nat) (sm : StateManager) (b : Bookmark) (k : Nat)
    (id : String) (hne : toString b.bookmark_id ≠ id) :
    (Ev.translateItem id ∉ (processBookmark tE collab clock sm b k).2.1) ∧
    (Ev.synthesizeItem id ∉ (processBookmark tE collab clock sm b k).2.1) ∧
    lookupKey (processBookmark tE collab clock sm b k).1.mem.processedBookmarks id
      = lookupKey sm.mem.processedBookmarks id := by
  have hne' : id ≠ toString b.bookmark_id := Ne.symm hne
  unfold processBookmark
  cases hfp : collab.fetchParse (toString b.bookmark_id) with
  | none => simp [hfp]
  | some pr =>
    obtain ⟨pt, src⟩ := pr
    cases tE with
    | true =>
      cases htr : collab.translateStage (toString b.bookmark_id) with
      | none => simp [hfp, htr, hne']
      | some tt =>
        cases hsy : collab.synth (toString b.bookmark_id) with
        | none => simp [hfp, htr, hsy, hne']
        | some dur =>
          refine ⟨by simp [hfp, htr, hsy, hne'],
            by simp [hfp, htr, hsy, hne'], ?_⟩
          simp only [hfp, htr, hsy, if_true]
          simp only [addProcessed, save]
          exact lookupKey_jsObjectSet_other _ _ _ _ hne'
    | false =>
      cases hsy : collab.synth (toString b.bookmark_id) with
      | none => simp [hfp, hsy, hne']
      | some dur =>
        refine ⟨by simp [hfp, hsy, hne'], by simp [hfp, hsy, hne'], ?_⟩
        simp only [hfp, hsy, Bool.false_eq_true, if_false]
        simp only [addProcessed, save]
        exact lookupKey_jsObjectSet_other _ _ _ _ hne'

theorem processBookmark_no_touch (tE : Bool) (collab : Collab)
    (clock : Nat → Nat) (sm : StateManager) (b : Bookmark) (k : Nat) :
    Ev.touchLastRun ∉ (processBookmark tE collab clock sm b k).2.1 := by
  unfold processBookmark
  cases hfp : collab.fetchParse (toString b.bookmark_id) with
  | none => simp [hfp]
  | some pr =>
    obtain ⟨pt, src⟩ := pr
    cases tE with
    | true =>
      cases htr : collab.translateStage (toString b.bookmark_id) with
      | none => simp [hfp, htr]
      | some tt =>
        cases hsy : collab.synth (toString b.bookmark_id) with
        | none => simp [hfp, htr, hsy]
        | some dur => simp [hfp, htr, hsy]
    | false =>
      cases hsy : collab.synth (toString b.bookmark_id) with
      | none => simp [hfp, hsy]
      | some dur => simp [hfp, hsy]

theorem runItems_other_id (tE : Bool) (collab : Collab) (clock : Nat → Nat)
    (l : List Bookmark) :
    ∀ (sm : StateManager) (k : Nat) (id : String),
      (∀ b ∈ l, toString b.bookmark_id ≠ id) →
      (Ev.translateItem id ∉ (runItems tE collab clock l sm k).2.1) ∧
      (Ev.synthesizeItem id ∉ (runItems tE collab clock l sm k).2.1) ∧
      lookupKey (runItems tE collab clock l sm k).1.mem.processedBookmarks id
        = lookupKey sm.mem.processedBookmarks id := by
  induction l with
  | nil => intro sm k id _; simp [runItems]
  | cons b rest ih =>
    intro sm k id hl
    have hb := processBookmark_other_id tE collab clock sm b k id
      (hl b (List.mem_cons_self b rest))
    have hr := ih (processBookmark tE collab clock sm b k).1
      (processBookmark tE collab clock sm b k).2.2 id
      (fun x hx => hl x (List.mem_cons_of_mem b hx))
    unfold runItems
    refine ⟨?_, ?_, ?_⟩
    · intro hmem
      rcases List.mem_append.mp hmem with h | h
      · exact hb.1 h
      · exact hr.1 h
    · intro hmem
      rcases List.mem_append.mp hmem with h | h
      · exact hb.2.1 h
      · exact hr.2.1 h
    · rw [hr.2.2, hb.2.2]

theorem runItems_no_touch (tE : Bool) (collab : Collab) (clock : Nat → Nat)
    (l : List Bookmark) :
    ∀ (sm : StateManager) (k : Nat),
      Ev.touchLastRun ∉ (runItems tE collab clock l sm k).2.1 := by
  induction l with
  | nil => intro sm k; simp [runItems]
  | cons b rest ih =>
    intro sm k
    unfold runItems
    intro hmem
    rcases List.mem_append.mp hmem with h | h
    · exact processBookmark_no_touch tE collab clock sm b k h
    · exact ih _ _ h

/-! ## Claim C1 — idempotence of re-running -/

/-- C1: for an id already present in the persisted episodes mapping, a run
of the pipeline over any discovered item set containing that id (a fresh
`StateManager` is constructed from storage at the start of each run, as in
`pipeline-runner.ts`) performs no translation and no synthesis for that id,
and both the in-memory and the persisted record stored under that id are
unchanged by the run. -/
theorem runPipeline_idempotent_for_processed_ids (tE : Bool) (collab : Collab)
    (clock : Nat → Nat) (tagF : Bool) (items : List Bookmark)
    (disk : Option AppState) (id : String)
    (hid : hasKey (load disk).processedBookmarks id = true)
    (hin : ∃ b ∈ items, toString b.bookmark_id = id) :
    (Ev.translateItem id
      ∉ (runPipeline tE collab clock tagF items (newStateManager disk)).2) ∧
    (Ev.synthesizeItem id
      ∉ (runPipeline tE collab clock tagF items (newStateManager disk)).2) ∧
    (lookupKey (runPipeline tE collab clock tagF items
        (newStateManager disk)).1.mem.processedBookmarks id
      = lookupKey (load disk).processedBookmarks id) ∧
    ((runPipeline tE collab clock tagF items (newStateManager disk)).1.disk
      = some (runPipeline tE collab clock tagF items
          (newStateManager disk)).1.mem) := by
  clear hin
  unfold runPipeline
  set sm0 : StateManager := newStateManager disk with hsm0
  have hproc : isProcessed sm0 id = true := hid
  set bookmarks := if tagF then dedupById items [] else items with hbm
  set newB := bookmarks.filter (fun b => !isProcessed sm0 (toString b.bookmark_id))
    with hnewB
  have hnotin : ∀ b ∈ newB, toString b.bookmark_id ≠ id := by
    intro b hb heq
    have := List.of_mem_filter hb
    rw [heq, hproc] at this
    simp at this
  by_cases hemp : newB.isEmpty
  · rw [if_pos hemp]
    exact ⟨by simp, by simp, rfl, rfl⟩
  · rw [if_neg hemp]
    have hri := runItems_other_id tE collab clock newB sm0 0 id hnotin
    refine ⟨?_, ?_, ?_, rfl⟩
    · intro hmem
      rcases List.mem_append.mp hmem with h | h
      · exact hri.1 h
      · simp at h
    · intro hmem
      rcases List.mem_append.mp hmem with h | h
      · exact hri.2.1 h
      · simp at h
    · exact hri.2.2

/-- Witness for C1: a run over a single already-processed bookmark neither
translates nor re-commits it. -/
theorem runPipeline_idempotent_for_processed_ids_witness :
    (hasKey
      (load (some ⟨[("1", ⟨"1", "t", "s", "f.mp3", 3, 50⟩)], none⟩)).processedBookmarks
      "1" = true) ∧
    (lookupKey
      (runPipeline true
        ⟨fun _ => some ("T", "src"), fun _ => some "TT", fun _ => some 7⟩
        (fun k => 100 + k) false [⟨1, "A", "u"⟩]
        (newStateManager
          (some ⟨[("1", ⟨"1", "t", "s", "f.mp3", 3, 50⟩)], none⟩))).1.mem.processedBookmarks
      "1"
      = lookupKey
          (load (some ⟨[("1", ⟨"1", "t", "s", "f.mp3", 3, 50⟩)], none⟩)).processedBookmarks
          "1") :=
  ⟨by decide,
    (runPipeline_idempotent_for_processed_ids true
      ⟨fun _ => some ("T", "src"), fun _ => some "TT", fun _ => some 7⟩
      (fun k => 100 + k) false [⟨1, "A", "u"⟩]
      (some ⟨[("1", ⟨"1", "t", "s", "f.mp3", 3, 50⟩)], none⟩) "1"
      (by decide) ⟨⟨1, "A", "u"⟩, List.mem_cons_self _ _, rfl⟩).2.2.1⟩

/-! ## Claim C4 — when lastRun is updated -/

/-- C4 counterexample: a run processing one bookmark successfully performs
two `lastRun`-updating writes — the item's `addProcessed` (which sets
`lastRun` to now, mid-run) followed by the end-of-run `updateLastRun` —
refuting the claim that `lastRunAt` is updated exactly once at the end of
the run and never mid-run. -/
theorem lastRun_midrun_update_counterexample :
    ((runPipeline true
        ⟨fun _ => some ("T", "src"), fun _ => some "TT", fun _ => some 7⟩
        (fun k => 100 + k) false [⟨1, "A", "u"⟩] (newStateManager none)).2
      = [Ev.translateItem "1", Ev.synthesizeItem "1", Ev.commitItem "1",
          Ev.touchLastRun]) ∧
    ((runPipeline true
        ⟨fun _ => some ("T", "src"), fun _ => some "TT", fun _ => some 7⟩
        (fun k => 100 + k) false [⟨1, "A", "u"⟩] (newStateManager none)).2.filter
          updatesLastRun
      = [Ev.commitItem "1", Ev.touchLastRun]) ∧
    ([Ev.commitItem "1", Ev.touchLastRun] ≠ [Ev.touchLastRun]) := by
  refine ⟨by decide, by decide, by decide⟩

/-- C4 (amended): every run's event trace ends with exactly one end-of-run
`updateLastRun` — including runs that discover zero new items — and the only
other writes that update `lastRun` are the per-item commits
(`addProcessed`), which do occur mid-run for each successfully processed
item. -/
theorem lastRun_updated_at_end_and_on_commits (tE : Bool) (collab : Collab)
    (clock : Nat → Nat) (tagF : Bool) (items : List Bookmark)
    (sm : StateManager) :
    ((runPipeline tE collab clock tagF items sm).2.getLast?
      = some Ev.touchLastRun) ∧
    ((runPipeline tE collab clock tagF items sm).2.count Ev.touchLastRun = 1) ∧
    (∀ e ∈ (runPipeline tE collab clock tagF items sm).2,
      updatesLastRun e = true →
        e = Ev.touchLastRun ∨ ∃ i, e = Ev.commitItem i) := by
  have hshape : (runPipeline tE collab clock tagF items sm).2 = [Ev.touchLastRun]
      ∨ ∃ l, (runPipeline tE collab clock tagF items sm).2 = l ++ [Ev.touchLastRun]
        ∧ Ev.touchLastRun ∉ l := by
    unfold runPipeline
    by_cases hemp : (List.filter (fun b => !isProcessed sm (toString b.bookmark_id))
        (if tagF then dedupById items [] else items)).isEmpty
    · rw [if_pos hemp]
      exact Or.inl rfl
    · rw [if_neg hemp]
      exact Or.inr ⟨_, rfl, runItems_no_touch tE collab clock _ sm 0⟩
  refine ⟨?_, ?_, ?_⟩
  · rcases hshape with h | ⟨l, h, _⟩
    · rw [h]; rfl
    · rw [h]; simp
  · rcases hshape with h | ⟨l, h, hnot⟩
    · rw [h]; rfl
    · rw [h]
      rw [List.count_append]
      have : l.count Ev.touchLastRun = 0 := List.count_eq_zero.mpr hnot
      rw [this]
      rfl
  · intro e _ hup
    cases e with
    | translateItem i => simp [updatesLastRun] at hup
    | synthesizeItem i => simp [updatesLastRun] at hup
    | commitItem i => exact Or.inr ⟨i, rfl⟩
    | touchLastRun => exact Or.inl rfl

/-- Witness for C4 (amended): a concrete one-item run ends with the
end-of-run update, and its mid-run commit is one of the permitted
`lastRun`-updating writes. -/
theorem lastRun_updated_at_end_and_on_commits_witness :
    ((runPipeline true
        ⟨fun _ => some ("T", "src"), fun _ => some "TT", fun _ => some 7⟩
        (fun k => 100 + k) false [⟨1, "A", "u"⟩] (newStateManager none)).2.getLast?
      = some Ev.touchLastRun) ∧
    (Ev.commitItem "1" = Ev.touchLastRun ∨ ∃ i, Ev.commitItem "1" = Ev.commitItem i) :=
  ⟨(lastRun_updated_at_end_and_on_commits true
      ⟨fun _ => some ("T", "src"), fun _ => some "TT", fun _ => some 7⟩
      (fun k => 100 + k) false [⟨1, "A", "u"⟩] (newStateManager none)).1,
    (lastRun_updated_at_end_and_on_commits true
      ⟨fun _ => some ("T", "src"), fun _ => some "TT", fun _ => some 7⟩
      (fun k => 100 + k) false [⟨1, "A", "u"⟩] (newStateManager none)).2.2
      (Ev.commitItem "1") (by decide) (by decide)⟩

/-! ## Claim C7 — long-text chunking -/

theorem dropWhile_eq_self_of_none (p : Char → Bool) (l : List Char)
    (h : ∀ c ∈ l, p c = false) : l.dropWhile p = l := by
  cases l with
  | nil => rfl
  | cons c rest =>
    rw [List.dropWhile_cons]
    simp [h c (List.mem_cons_self c rest)]

theorem trimStr_of_no_ws (l : List Char)
    (h : ∀ c ∈ l, isJsWhitespace c = false) :
    trimStr (String.mk l) = String.mk l := by
  unfold trimStr
  have h1 : l.dropWhile isJsWhitespace = l := dropWhile_eq_self_of_none _ _ h
  have h2 : l.reverse.dropWhile isJsWhitespace = l.reverse :=
    dropWhile_eq_self_of_none _ _ (fun c hc => h c (List.mem_reverse.mp hc))
  show String.mk (((l.dropWhile isJsWhitespace).reverse.dropWhile isJsWhitespace).reverse)
      = String.mk l
  rw [h1, h2, List.reverse_reverse]

theorem scanMatchesGo_nil_of_no_term :
    ∀ (fuel : Nat) (l : List Char), (∀ c ∈ l, isTermChar c = false) →
      scanMatchesGo fuel l = [] := by
  intro fuel l h
  cases fuel with
  | zero => rfl
  | succ f =>
    cases l with
    | nil => rfl
    | cons c rest =>
      have hdw : List.dropWhile (fun x => !isTermChar x) (c :: rest) = [] :=
        List.dropWhile_eq_nil_iff.mpr (fun x hx => by simp [h x hx])
      simp [scanMatchesGo, h c (List.mem_cons_self c rest), hdw]

theorem string_eq_empty_of_length_zero (s : String) (h : s.length = 0) :
    s = "" := by
  cases s with
  | mk d =>
    simp only [String.length] at h
    have : d = [] := List.length_eq_zero.mp h
    rw [this]

theorem buildChunks_chunk_bound (maxChars : Nat) (allS : List String) :
    ∀ (sentences : List String) (current : String),
      (current.length ≤ maxChars ∨ ∃ s ∈ allS, current = s) →
      (∀ s ∈ sentences, s ∈ allS) →
      ∀ c ∈ buildChunks maxChars sentences current,
        c.length ≤ maxChars ∨ ∃ s ∈ allS, c = trimStr s := by
  intro sentences
  induction sentences with
  | nil =>
    intro current hcur _ c hc
    unfold buildChunks at hc
    by_cases ht : (trimStr current).length > 0
    · rw [if_pos ht] at hc
      rcases List.mem_cons.mp hc with rfl | h
      · rcases hcur with h1 | ⟨s0, hs0, heq⟩
        · exact Or.inl (le_trans (trimStr_length_le current) h1)
        · exact Or.inr ⟨s0, hs0, by rw [heq]⟩
      · simp at h
    · rw [if_neg ht] at hc
      simp at hc
  | cons s rest ih =>
    intro current hcur hsub c hc
    unfold buildChunks at hc
    by_cases hcond : current.length + s.length > maxChars ∧ current.length > 0
    · rw [if_pos hcond] at hc
      rcases List.mem_cons.mp hc with rfl | h
      · rcases hcur with h1 | ⟨s0, hs0, heq⟩
        · exact Or.inl (le_trans (trimStr_length_le current) h1)
        · exact Or.inr ⟨s0, hs0, by rw [heq]⟩
      · exact ih s (Or.inr ⟨s, hsub s (List.mem_cons_self s rest), rfl⟩)
          (fun x hx => hsub x (List.mem_cons_of_mem s hx)) c h
    · rw [if_neg hcond] at hc
      have hcase : current.length + s.length ≤ maxChars ∨ current.length = 0 := by
        by_cases h0 : current.length > 0
        · left
          by_contra hgt
          exact hcond ⟨by omega, h0⟩
        · right
          omega
      rcases hcase with hle | h0
      · exact ih (current ++ s)
          (Or.inl (by rw [String.length_append]; exact hle))
          (fun x hx => hsub x (List.mem_cons_of_mem s hx)) c hc
      · rw [string_eq_empty_of_length_zero current h0] at hc
        have hes : (("" : String) ++ s) = s := by simp
        rw [hes] at hc
        exact ih s (Or.inr ⟨s, hsub s (List.mem_cons_self s rest), rfl⟩)
          (fun x hx => hsub x (List.mem_cons_of_mem s hx)) c hc

/-- C7 counterexample: a 12001-character text with no sentence terminator is
longer than the fixed threshold (`MAX_CHARS_PER_CHUNK` = 12000), yet
`splitIntoChunks` returns it as a single chunk of length 12001 — a chunk
exceeding the threshold — refuting the claim that every chunk of an
over-threshold text stays within the threshold. -/
theorem splitIntoChunks_oversized_chunk_counterexample :
    splitIntoChunks (String.mk (List.replicate 12001 'a')) MAX_CHARS_PER_CHUNK
      = [String.mk (List.replicate 12001 'a')] ∧
    (String.mk (List.replicate 12001 'a')).length = 12001 ∧
    12001 > MAX_CHARS_PER_CHUNK := by
  have hlen : (String.mk (List.replicate 12001 'a')).length = 12001 := by
    show (List.replicate 12001 'a').length = 12001
    rw [List.length_replicate]
  refine ⟨?_, hlen, by decide⟩
  have hchars : ∀ c ∈ List.replicate 12001 'a', isTermChar c = false := by
    intro c hc
    rw [List.eq_of_mem_replicate hc]
    decide
  have hws : ∀ c ∈ List.replicate 12001 'a', isJsWhitespace c = false := by
    intro c hc
    rw [List.eq_of_mem_replicate hc]
    decide
  have hsent : sentencesOf (String.mk (List.replicate 12001 'a'))
      = [String.mk (List.replicate 12001 'a')] := by
    unfold sentencesOf scanMatches
    rw [scanMatchesGo_nil_of_no_term _ _ hchars]
  unfold splitIntoChunks
  rw [if_neg (by rw [hlen]; decide)]
  rw [hsent]
  unfold buildChunks
  rw [if_neg (by simp)]
  have hemp : (("" : String) ++ String.mk (List.replicate 12001 'a'))
      = String.mk (List.replicate 12001 'a') := by simp
  rw [hemp]
  unfold buildChunks
  rw [trimStr_of_no_ws _ hws]
  rw [if_pos (by rw [hlen]; decide)]

/-- C7 (amended): a text at or below the threshold is exactly one chunk (the
whole text); for longer texts every chunk either stays within the threshold
or is the trimmed form of a single regex sentence that itself exceeds the
threshold (including the degenerate case of a text with no sentence
boundary, which becomes one oversized chunk); each chunk is translated
independently and the results are joined with the paragraph separator; and a
title is never chunked — always at most one call. -/
theorem chunking_characterization (text : String) (maxChars : Nat)
    (detect : String → String) (api : String → String)
    (cfg : TranslationConfig) :
    (text.length ≤ maxChars → splitIntoChunks text maxChars = [text]) ∧
    (∀ c ∈ splitIntoChunks text maxChars,
      c.length ≤ maxChars ∨ ∃ s ∈ sentencesOf text, c = trimStr s) ∧
    ((translateText detect api cfg text).skipped = false →
      (translateText detect api cfg text).output
        = String.intercalate "\n\n"
            ((splitIntoChunks text MAX_CHARS_PER_CHUNK).map api) ∧
      (translateText detect api cfg text).apiCalls
        = (splitIntoChunks text MAX_CHARS_PER_CHUNK).length) ∧
    ((translateTitle detect api cfg text).apiCalls ≤ 1) := by
  refine ⟨?_, ?_, ?_, ?_⟩
  · intro h
    unfold splitIntoChunks
    rw [if_pos h]
  · intro c hc
    unfold splitIntoChunks at hc
    by_cases h : text.length ≤ maxChars
    · rw [if_pos h] at hc
      rcases List.mem_cons.mp hc with rfl | h'
      · exact Or.inl h
      · simp at h'
    · rw [if_neg h] at hc
      exact buildChunks_chunk_bound maxChars (sentencesOf text)
        (sentencesOf text) "" (Or.inl (Nat.zero_le _))
        (fun _ hs => hs) c hc
  · intro hns
    unfold translateText at hns ⊢
    by_cases hskip : (cfg.skip_if_same && (detect text == targetCodeOf cfg)) = true
    · rw [if_pos hskip] at hns
      simp at hns
    · rw [if_neg hskip] at hns ⊢
      exact ⟨rfl, rfl⟩
  · unfold translateTitle
    by_cases hskip : (cfg.skip_if_same && (detect text == targetCodeOf cfg)) = true
    · rw [if_pos hskip]
      exact Nat.zero_le 1
    · rw [if_neg hskip]

/-- Witness for C7 (amended): at-threshold text is one chunk; the first
chunk of "ab. cd." at threshold 3 satisfies the per-chunk bound. -/
theorem chunking_characterization_witness :
    (splitIntoChunks "hello" 12000 = ["hello"]) ∧
    (("ab." : String).length ≤ 3 ∨
      ∃ s ∈ sentencesOf "ab. cd.", ("ab." : String) = trimStr s) :=
  ⟨(chunking_characterization "hello" 12000 (fun _ => "") (fun s => s)
      ⟨"", "", "", "x", false⟩).1 (by decide),
    (chunking_characterization "ab. cd." 3 (fun _ => "") (fun s => s)
      ⟨"", "", "", "x", false⟩).2.1 "ab." (by decide)⟩

end Instapod
